import Mathlib

/-!
Verification development for the `imessage_monitor` repository.

The Python sources under `src/imessage_monitor/` are shallowly embedded:

* `message_parser.py` — the blob decoders (`decode_attributed_body`,
  `analyze_attributed_body_data`, `decode_binary_plist`) and the record
  assembler `get_recent_messages`;
* `monitor.py` — the `iMessageMonitor` class: `start`, `stop`,
  `get_messages_since`, `get_recent_messages_batched`,
  `_check_new_messages`, `_process_messages_in_batches`;
* `watchdog.py` — `QueueBasedMessageWatcher` (debounce + bounded queue),
  `QueueBasedRealtimeStrategy` and `RealtimeMonitor`.

Modelling conventions: Python `bytes` are `List Nat` (each element a byte
value); Python `str` is `List Char`; fallible Python operations return
`Except PyExc _` and `try/except` blocks are explicit `match`es on that
result; the sqlite `message` table is a list of rows carrying the columns
the embedded queries read (`ROWID`, `date`); wall-clock instants
(`time.time()`) are rationals.  Library calls whose internals are outside
the repository (`plistlib.loads`) are abstracted as function parameters.
The run-to-run iteration order of a Python `set` of strings (which CPython
randomizes via string hashing) is abstracted as a function parameter
`setOrder` constrained to enumerate each distinct element exactly once.
-/

/-- Python exception values relevant to the embedded code paths. -/
inductive PyExc where
  | typeError
  | runtimeError
  | indexError
  | queueFull
  | valueError
  | other
deriving DecidableEq, Repr

/-- Python list indexing `l[i]` for a non-negative index: raises
`IndexError` when out of range. -/
def pyListGet {α : Type} (l : List α) (i : Nat) : Except PyExc α :=
  match l.get? i with
  | some x => Except.ok x
  | none => Except.error PyExc.indexError

/-! ## Record assembler and monitor (`message_parser.get_recent_messages`,
`monitor.iMessageMonitor`)

A database row carries the two `message` columns the embedded queries
depend on: `ROWID` (unique, assigned increasingly by sqlite) and `date`.
The many joined presentation columns of the big query do not influence
which rows are selected, their order, or any claim below, so they are
elided from the row model. -/

structure Row where
  rowid : Nat
  date : Int
deriving DecidableEq, Repr

/-- The `message` table: one entry per row. -/
abbrev DB := List Row

/-- The comparison underlying `ORDER BY date DESC`. -/
def dateDesc (a b : Row) : Prop := b.date ≤ a.date

instance : DecidableRel dateDesc := fun a b => by
  unfold dateDesc; infer_instance

instance : IsTotal Row dateDesc :=
  ⟨fun a b => le_total b.date a.date⟩

instance : IsTrans Row dateDesc :=
  ⟨fun _ _ _ h1 h2 => le_trans h2 h1⟩

/-- `SELECT ... ORDER BY date DESC` on a row multiset.  Which stable order
sqlite uses between equal dates is unspecified; all theorems that depend
on the order assume pairwise distinct dates, under which any sort agrees
with this one. -/
def sortByDateDesc (db : DB) : List Row := List.insertionSort dateDesc db

/-- `message_parser.get_recent_messages(db_path, limit)`: the big join
query, grouped per message row, `ORDER BY m.date DESC LIMIT ?`. -/
def get_recent_messages (db : DB) (limit : Nat) : List Row :=
  (sortByDateDesc db).take limit

/-- `iMessageMonitor.get_messages_since(message_id)`:
`SELECT ROWID FROM message WHERE ROWID > ? ORDER BY date DESC`, then —
when any ids came back — a second fetch of the `len(ids)` most recent
messages via `get_recent_messages`. -/
def get_messages_since (db : DB) (message_id : Nat) : List Row :=
  let newMessageIds :=
    (sortByDateDesc (db.filter (fun r => decide (message_id < r.rowid)))).map (fun r => r.rowid)
  if newMessageIds.isEmpty then []
  else get_recent_messages db newMessageIds.length

/-- One fetch cycle of `iMessageMonitor._check_new_messages`: fetch the
messages past the cursor; when the result is non-empty the cursor becomes
`new_messages[0]['message_id']`.  Returns the new cursor and the fetched
records. -/
def checkNewMessages (db : DB) (cursor : Nat) : Nat × List Row :=
  match get_messages_since db cursor with
  | [] => (cursor, [])
  | m :: rest => (m.rowid, m :: rest)

/-! ### Watchdog (`watchdog.py`) -/

/-- A filesystem event as handed to `FileSystemEventHandler`: its source
path, watchdog event type and directory flag. -/
structure FsEvent where
  srcPath : List Char
  eventType : List Char
  isDirectory : Bool
deriving DecidableEq, Repr

/-- `pathlib.Path(p).name`: the final path component, ignoring trailing
slashes (embedded for paths whose final component is a plain file name,
the only shape produced by the directory watcher). -/
def pathName (p : List Char) : List Char :=
  let stripped := p.reverse.dropWhile (fun c => c = '/')
  (stripped.takeWhile (fun c => decide (c ≠ '/'))).reverse

/-- A Change Signal: the `event_data` dict built by
`_check_database_file_event`. -/
structure Signal where
  timestamp : ℚ
  fileName : List Char
  eventType : List Char
  eventId : Nat
deriving DecidableEq, Repr

/-- A `queue.Queue(maxsize)` holding its bound and its current items
(front of the list = front of the queue). -/
structure PyQueue (α : Type) where
  maxsize : Nat
  items : List α
deriving DecidableEq, Repr

/-- `Queue.put_nowait`: raises `queue.Full` when a positive `maxsize` is
reached, otherwise appends. -/
def putNowait {α : Type} (q : PyQueue α) (x : α) : Except PyExc (PyQueue α) :=
  if 0 < q.maxsize ∧ q.maxsize ≤ q.items.length then Except.error PyExc.queueFull
  else Except.ok { q with items := q.items ++ [x] }

/-- Mutable state of a `QueueBasedMessageWatcher` (the queue itself is
shared with the strategy and threaded separately). -/
structure WatcherState where
  lastModificationTime : ℚ
  eventCount : Nat
  queuePuts : Nat
deriving DecidableEq, Repr

/-- `QueueBasedMessageWatcher.__init__`: zeroed counters and debounce
clock. -/
def initWatcher : WatcherState :=
  { lastModificationTime := 0, eventCount := 0, queuePuts := 0 }

/-- `self._debounce_interval = 0.1`. -/
def debounceInterval : ℚ := 1 / 10

/-- The four watched database file names. -/
def dbFiles : List (List Char) :=
  ["chat.db".toList, "chat.db-wal".toList, "chat.db-shm".toList, "chat.db-journal".toList]

/-- `QueueBasedMessageWatcher._check_database_file_event`, with
`time.time()` passed in as `currentTime`.  The `except queue.Full` /
`except Exception` handlers make the enqueue attempt total: a full queue
drops the signal and returns. -/
def checkDatabaseFileEvent (w : WatcherState) (q : PyQueue Signal) (e : FsEvent)
    (currentTime : ℚ) : WatcherState × PyQueue Signal :=
  let fileName := pathName e.srcPath
  let isDbFile := dbFiles.any (fun dbFile => decide (fileName = dbFile))
  if isDbFile then
    if debounceInterval ≤ currentTime - w.lastModificationTime then
      let w' := { w with lastModificationTime := currentTime, queuePuts := w.queuePuts + 1 }
      let sig : Signal :=
        { timestamp := currentTime, fileName := fileName,
          eventType := e.eventType, eventId := w'.queuePuts }
      match putNowait q sig with
      | Except.ok q' => (w', q')
      | Except.error _ => (w', q)
    else (w, q)
  else (w, q)

/-- `QueueBasedMessageWatcher.on_any_event`: count the event, then process
it unless it is a directory event. -/
def onAnyEvent (w : WatcherState) (q : PyQueue Signal) (e : FsEvent)
    (currentTime : ℚ) : WatcherState × PyQueue Signal :=
  let w0 := { w with eventCount := w.eventCount + 1 }
  if e.isDirectory then (w0, q) else checkDatabaseFileEvent w0 q e currentTime

/-- Feed a timed event sequence through the watcher. -/
def runEvents (w : WatcherState) (q : PyQueue Signal) :
    List (FsEvent × ℚ) → WatcherState × PyQueue Signal
  | [] => (w, q)
  | (e, t) :: rest =>
    let (w', q') := onAnyEvent w q e t
    runEvents w' q' rest

/-- Mutable state of a `QueueBasedRealtimeStrategy`.  The observer and the
queue-processor task are modelled by their presence (plus the observer's
liveness); the callback by its presence. -/
structure StrategyState where
  observerAlive : Option Bool
  hasWatcher : Bool
  messageQueue : Option (PyQueue Signal)
  hasProcessorTask : Bool
  isRunning : Bool
  hasCallback : Bool
  queueEventsProcessed : Nat
deriving DecidableEq, Repr

/-- `QueueBasedRealtimeStrategy.__init__`. -/
def initStrategy : StrategyState :=
  { observerAlive := none, hasWatcher := false, messageQueue := none,
    hasProcessorTask := false, isRunning := false, hasCallback := false,
    queueEventsProcessed := 0 }

/-- `QueueBasedRealtimeStrategy.stop`: clear the running flag, cancel the
processor task, stop and drop the observer, drain and drop the queue,
drop watcher and callback. -/
def strategyStop (s : StrategyState) : StrategyState :=
  { observerAlive := none, hasWatcher := false, messageQueue := none,
    hasProcessorTask := false, isRunning := false, hasCallback := false,
    queueEventsProcessed := s.queueEventsProcessed }

/-- The queue bound hard-coded at `watchdog.py:149`:
`queue.Queue(maxsize=100)`. -/
def strategyQueueMaxsize : Nat := 100

/-- `QueueBasedRealtimeStrategy.start`.  External effects are inputs:
`dirExists` is `watch_directory.exists()`, and `observerStartOk` is
whether setting up and starting the `PollingObserver` (and the processor
task) runs without raising — on an exception the `except` handler calls
`self.stop()` and reports failure. -/
def strategyStart (s : StrategyState) (dirExists observerStartOk : Bool) :
    Bool × StrategyState :=
  if s.observerAlive.isSome then (false, s)
  else
    let s1 := { s with messageQueue := some ⟨strategyQueueMaxsize, []⟩, hasCallback := true }
    if ¬ dirExists then (false, s1)
    else if observerStartOk then
      let s2 := { s1 with
        hasWatcher := true
        observerAlive := some true
        isRunning := true
        hasProcessorTask := true }
      (true, s2)
    else (false, strategyStop s1)

/-- `QueueBasedRealtimeStrategy.is_active`. -/
def strategyIsActive (s : StrategyState) : Bool :=
  match s.observerAlive with
  | some alive => alive
  | none => false

/-- Mutable state of a `RealtimeMonitor`. -/
structure RealtimeMonitorState where
  strategy : Option StrategyState
  backupPollingUsed : Bool
deriving DecidableEq, Repr

/-- `RealtimeMonitor.__init__`. -/
def initRealtimeMonitor : RealtimeMonitorState :=
  { strategy := none, backupPollingUsed := false }

/-- `RealtimeMonitor.stop`: stop and drop the strategy (if any), reset the
backup-polling flag. -/
def realtimeMonitorStop (_m : RealtimeMonitorState) : RealtimeMonitorState :=
  { strategy := none, backupPollingUsed := false }

/-! ### The monitor session (`monitor.iMessageMonitor`) -/

/-- Mutable state of an `iMessageMonitor`: the running flag, the task
handle (by presence), the cursor `_last_message_id`, the callback (by
presence), the one-shot large-batch warning flag, and the nested
real-time monitor. -/
structure MonitorState where
  isRunning : Bool
  hasMonitorTask : Bool
  lastMessageId : Nat
  hasCallback : Bool
  largeBatchWarningShown : Bool
  realtimeMonitor : RealtimeMonitorState
deriving DecidableEq, Repr

/-- `iMessageMonitor.stop`: a no-op unless running; otherwise clear the
running flag, cancel and drop the task, stop the real-time monitor, drop
the callback. -/
def monitorStop (s : MonitorState) : MonitorState :=
  if ¬ s.isRunning then s
  else
    { s with
      isRunning := false
      hasMonitorTask := false
      realtimeMonitor := realtimeMonitorStop s.realtimeMonitor
      hasCallback := false }

/-- `getattr(self.config, 'initial_message_limit', 100)`: `Config`
(config.py) defines no `initial_message_limit` attribute, so the default
applies. -/
def initialMessageLimit : Nat := 100

/-- `iMessageMonitor.start(message_callback)`: raises `RuntimeError` when
already running (before any state is touched); otherwise sets the running
flag and callback, fetches the initial backlog, seeds the cursor from
`messages[0]['message_id']` when the backlog is non-empty, and schedules
the monitor loop task when a callback was given.  Returns the Python
result (backlog or exception) together with the post-call state. -/
def monitorStart (s : MonitorState) (db : DB) (callback : Bool) :
    Except PyExc (List Row) × MonitorState :=
  if s.isRunning then (Except.error PyExc.runtimeError, s)
  else
    let s1 := { s with isRunning := true, hasCallback := callback }
    let messages := get_recent_messages db initialMessageLimit
    let s2 :=
      match messages with
      | [] => s1
      | m :: _ => { s1 with lastMessageId := m.rowid }
    let s3 := if callback then { s2 with hasMonitorTask := true } else s2
    (Except.ok messages, s3)

/-! ### Batch dispatcher (`_process_messages_in_batches`) and batched
fetch (`get_recent_messages_batched`) -/

/-- `range(0, n, step)` for a positive step; `range` with step 0 raises
`ValueError`. -/
def pyRangeStep (n step : Nat) : Except PyExc (List Nat) :=
  if step = 0 then Except.error PyExc.valueError
  else Except.ok ((List.range ((n + step - 1) / step)).map (fun k => k * step))

/-- `iMessageMonitor._process_messages_in_batches`, reported as the exact
sequence of records handed to the callback: without a registered callback
nothing is delivered; otherwise the input is reversed
(`list(reversed(messages))`) and walked in slices
`messages_reversed[i:i+batch_size]` for `i in range(0, len, batch_size)`.
A callback exception is caught per record and delivery continues, and the
one-shot size warning and the inter-batch sleep do not alter the
sequence, so the delivered sequence is the concatenation of the slices. -/
def processMessagesInBatches (hasCallback : Bool) (batchSize : Nat)
    (messages : List Row) : Except PyExc (List Row) :=
  if ¬ hasCallback then Except.ok []
  else do
    let rev := messages.reverse
    let idxs ← pyRangeStep rev.length batchSize
    Except.ok (idxs.map (fun i => (rev.drop i).take batchSize)).flatten

/-- A Python positional call: `TypeError` unless the argument count fits
between the callee's mandatory and total positional parameter counts (the
body is not entered on a mismatch). -/
def pyCallArity {α : Type} (minPos maxPos given : Nat) (result : α) : Except PyExc α :=
  if minPos ≤ given ∧ given ≤ maxPos then Except.ok result
  else Except.error PyExc.typeError

/-- The loop of `iMessageMonitor.get_recent_messages_batched`, forced to a
list of batches (the Python generator produces them lazily; forcing the
next batch runs the next iteration).  Each iteration calls the
module-level `get_recent_messages(self._db_path, current_batch_size,
offset)` with three positional arguments, while
`message_parser.get_recent_messages(db_path, limit=50)` declares one
mandatory and one optional positional parameter; the call is embedded
through `pyCallArity 1 2 3`.  `fuel` merely bounds the recursion depth:
`limit + 1` iterations are never reached, since every iteration either
stops or advances `offset` by `min batchSize (limit - offset)`. -/
def batchedLoop (db : DB) (batchSize limit : Nat) :
    Nat → Nat → Except PyExc (List (List Row))
  | 0, _ => Except.ok []
  | fuel + 1, offset =>
    if offset < limit then do
      let currentBatchSize := min batchSize (limit - offset)
      let batch ← pyCallArity 1 2 3 (get_recent_messages db currentBatchSize)
      if batch.isEmpty then Except.ok []
      else do
        let rest ← batchedLoop db batchSize limit fuel (offset + currentBatchSize)
        Except.ok (batch :: rest)
    else Except.ok []

/-- `iMessageMonitor.get_recent_messages_batched(limit)` with the
configured `max_batch_size`, fully forced. -/
def get_recent_messages_batched (db : DB) (batchSize limit : Nat) :
    Except PyExc (List (List Row)) :=
  batchedLoop db batchSize limit (limit + 1) 0

/-! ## Blob decoder (`message_parser.py`)

`bytes.decode('utf-8', errors='replace')` is embedded as CPython performs
it: well-formed sequences decode to their scalar value, and each maximal
subpart of an ill-formed sequence is replaced by one U+FFFD. -/

/-- U+FFFD, the replacement character. -/
def replSym : Char := Char.ofNat 0xFFFD

/-- A UTF-8 continuation byte. -/
def utf8Cont (b : Nat) : Bool := decide (0x80 ≤ b ∧ b ≤ 0xBF)

/-- Admissible first continuation byte after a three-byte leader (the
ranges that exclude overlong forms and surrogates). -/
def utf8Cont3First (b c : Nat) : Bool :=
  if b = 0xE0 then decide (0xA0 ≤ c ∧ c ≤ 0xBF)
  else if b = 0xED then decide (0x80 ≤ c ∧ c ≤ 0x9F)
  else utf8Cont c

/-- Admissible first continuation byte after a four-byte leader. -/
def utf8Cont4First (b c : Nat) : Bool :=
  if b = 0xF0 then decide (0x90 ≤ c ∧ c ≤ 0xBF)
  else if b = 0xF4 then decide (0x80 ≤ c ∧ c ≤ 0x8F)
  else utf8Cont c

/-- The byte-consuming step structure of the decoder, driven by fuel so
that it is structurally recursive (every step consumes at least one byte,
so `bs.length` fuel is never exhausted before the input is). -/
def utf8DecodeReplaceAux : Nat → List Nat → List Char
  | 0, _ => []
  | _fuel + 1, [] => []
  | fuel + 1, b :: rest =>
    if b ≤ 0x7F then Char.ofNat b :: utf8DecodeReplaceAux fuel rest
    else if b < 0xC2 then replSym :: utf8DecodeReplaceAux fuel rest
    else if b ≤ 0xDF then
      match rest with
      | [] => [replSym]
      | c1 :: rest1 =>
        if utf8Cont c1 then
          Char.ofNat ((b - 0xC0) * 64 + (c1 - 0x80)) :: utf8DecodeReplaceAux fuel rest1
        else replSym :: utf8DecodeReplaceAux fuel rest
    else if b ≤ 0xEF then
      match rest with
      | [] => [replSym]
      | c1 :: rest1 =>
        if utf8Cont3First b c1 then
          match rest1 with
          | [] => [replSym]
          | c2 :: rest2 =>
            if utf8Cont c2 then
              Char.ofNat ((b - 0xE0) * 4096 + (c1 - 0x80) * 64 + (c2 - 0x80)) ::
                utf8DecodeReplaceAux fuel rest2
            else replSym :: utf8DecodeReplaceAux fuel rest1
        else replSym :: utf8DecodeReplaceAux fuel rest
    else if b ≤ 0xF4 then
      match rest with
      | [] => [replSym]
      | c1 :: rest1 =>
        if utf8Cont4First b c1 then
          match rest1 with
          | [] => [replSym]
          | c2 :: rest2 =>
            if utf8Cont c2 then
              match rest2 with
              | [] => [replSym]
              | c3 :: rest3 =>
                if utf8Cont c3 then
                  Char.ofNat ((b - 0xF0) * 262144 + (c1 - 0x80) * 4096 +
                      (c2 - 0x80) * 64 + (c3 - 0x80)) ::
                    utf8DecodeReplaceAux fuel rest3
                else replSym :: utf8DecodeReplaceAux fuel rest2
            else replSym :: utf8DecodeReplaceAux fuel rest1
        else replSym :: utf8DecodeReplaceAux fuel rest
    else replSym :: utf8DecodeReplaceAux fuel rest

/-- `bytes.decode('utf-8', errors='replace')`. -/
def utf8DecodeReplace (bs : List Nat) : List Char :=
  utf8DecodeReplaceAux (bs.length + 1) bs

/-! Character classes used by the regular expressions of
`message_parser.py`.  The embedded inputs are byte strings decoded with
`errors='replace'`; the classes `\d`, `\s`, `\w` are embedded by their
ASCII fragments (their behaviour on the ASCII range, which is all the
fixed patterns and all concrete inputs below exercise). -/

/-- `[\x20-\x7E]`. -/
def pyIsPrintableAscii (c : Char) : Bool := decide (0x20 ≤ c.toNat ∧ c.toNat ≤ 0x7E)

/-- `[A-Z]`. -/
def isAsciiUpper (c : Char) : Bool := decide ('A' ≤ c ∧ c ≤ 'Z')

/-- `[a-z]`. -/
def isAsciiLower (c : Char) : Bool := decide ('a' ≤ c ∧ c ≤ 'z')

/-- `[A-Za-z]`. -/
def isAsciiAlpha (c : Char) : Bool := isAsciiUpper c || isAsciiLower c

/-- `\d` (ASCII fragment). -/
def pyIsDigit (c : Char) : Bool := decide ('0' ≤ c ∧ c ≤ '9')

/-- `\s` (ASCII fragment), also the default strip set of `str.strip()`. -/
def pyIsSpace (c : Char) : Bool :=
  decide (c = ' ' ∨ c = Char.ofNat 9 ∨ c = Char.ofNat 10 ∨ c = Char.ofNat 11 ∨
    c = Char.ofNat 12 ∨ c = Char.ofNat 13)

/-- `[A-Za-z0-9:\-\s]`, the attribute-value class. -/
def isAttrValChar (c : Char) : Bool :=
  isAsciiAlpha c || pyIsDigit c || decide (c = ':') || decide (c = '-') || pyIsSpace c

/-- The non-letter members of the attribute-value class. -/
def isAttrValNonAlpha (c : Char) : Bool :=
  pyIsDigit c || decide (c = ':') || decide (c = '-') || pyIsSpace c

/-- `\w` (ASCII fragment): the class kept by
`re.sub(r'[^\w\s:\-]', '', value)`. -/
def isCleanKeepChar (c : Char) : Bool :=
  isAsciiAlpha c || pyIsDigit c || decide (c = '_') || pyIsSpace c ||
    decide (c = ':') || decide (c = '-')

/-- Does `pat` begin `s`? -/
def leadsWith : List Char → List Char → Bool
  | [], _ => true
  | _ :: _, [] => false
  | a :: as, b :: bs => a = b && leadsWith as bs

/-- Index of the first occurrence of `sep` in `s`. -/
def findSub (sep : List Char) : List Char → Option Nat
  | [] => if sep.isEmpty then some 0 else none
  | c :: rest =>
    if leadsWith sep (c :: rest) then some 0
    else (findSub sep rest).map (fun i => i + 1)

/-- Python `sep in s` (substring containment). -/
def containsSub (sep s : List Char) : Bool := (findSub sep s).isSome

/-- The splitting loop of `str.split(sep)` for a non-empty separator,
driven by fuel (each occurrence consumes at least `sep.length ≥ 1`
characters, so `s.length + 1` fuel is never exhausted). -/
def pySplitAux (sep : List Char) : Nat → List Char → List (List Char)
  | 0, s => [s]
  | fuel + 1, s =>
    match findSub sep s with
    | none => [s]
    | some i => s.take i :: pySplitAux sep fuel (s.drop (i + sep.length))

/-- `str.split(sep)`: split at each left-to-right non-overlapping
occurrence of `sep`.  (Python raises `ValueError` on an empty separator;
the embedded call sites always pass a non-empty literal.) -/
def pySplit (sep : List Char) (s : List Char) : List (List Char) :=
  match sep with
  | [] => [s]
  | _ :: _ => pySplitAux sep (s.length + 1) s

/-- `str.strip()` over the ASCII whitespace fragment. -/
def pyStrip (s : List Char) : List Char :=
  ((s.dropWhile pyIsSpace).reverse.dropWhile pyIsSpace).reverse

/-- The slice `s[6:-12]`. -/
def slice6m12 (s : List Char) : List Char := (s.take (s.length - 12)).drop 6

/-- `max(x :: xs, key=len)`: the first element of maximal length. -/
def pyMaxByLen (x : List Char) (xs : List (List Char)) : List Char :=
  xs.foldl (fun acc y => if acc.length < y.length then y else acc) x

/-- `re.findall(r'[\x20-\x7E]{n,}', s)`: the maximal runs of printable
ASCII characters of length at least `n`. -/
def printableRuns (minLen : Nat) (s : List Char) : List (List Char) :=
  (List.splitOnP (fun c => ! pyIsPrintableAscii c) s).filter
    (fun r => decide (minLen ≤ r.length))

/-! The remaining `re.findall` patterns are embedded as a
match-at-position function per pattern (returning the match and the rest
of the input after it) plus the generic left-to-right non-overlapping
scan `pyFindAll`: at each position, emit the match and resume after it,
or advance one character.  The scan carries `s.length` fuel; every step
consumes at least one character (no pattern below matches the empty
string), so the fuel is never exhausted before the input is. -/

/-- The non-overlapping scan underlying `re.findall`. -/
def scanWith {α : Type} (matcher : List Char → Option (α × List Char)) :
    Nat → List Char → List α
  | 0, _ => []
  | _fuel + 1, [] => []
  | fuel + 1, c :: rest =>
    match matcher (c :: rest) with
    | some (m, r) => m :: scanWith matcher fuel r
    | none => scanWith matcher fuel rest

/-- `re.findall(pattern, s)` for the pattern embedded by `matcher`. -/
def pyFindAll {α : Type} (matcher : List Char → Option (α × List Char))
    (s : List Char) : List α :=
  scanWith matcher s.length s

/-- `NS[A-Za-z]+` at the current position: the literal `NS` followed by
the maximal run of at least one ASCII letter. -/
def nsAt (s : List Char) : Option (List Char × List Char) :=
  match s with
  | 'N' :: 'S' :: c :: rest =>
    if isAsciiAlpha c then
      some ('N' :: 'S' :: (c :: rest).takeWhile isAsciiAlpha,
        (c :: rest).dropWhile isAsciiAlpha)
    else none
  | _ => none

/-- `__k[A-Za-z]+` at the current position. -/
def kAt (s : List Char) : Option (List Char × List Char) :=
  match s with
  | '_' :: '_' :: 'k' :: c :: rest =>
    if isAsciiAlpha c then
      some ('_' :: '_' :: 'k' :: (c :: rest).takeWhile isAsciiAlpha,
        (c :: rest).dropWhile isAsciiAlpha)
    else none
  | _ => none

/-- `(__k[A-Za-z]+)[^A-Za-z]*([A-Za-z0-9:\-\s]+)` at the current
position, with the backtracking a backtracking engine performs spelled
out.  After the greedy letter run `m`, the greedy `[^A-Za-z]*` gap runs
to the next letter; when a letter follows the gap the final class starts
there (its first branch).  At end of input the gap backs off to its last
character inside `[A-Za-z0-9:\-\s]` (second branch); failing that, the
letter run itself gives back its final letter, which then matches the
final class on its own (third branch, needing at least two letters). -/
def attrAt (s : List Char) : Option ((List Char × List Char) × List Char) :=
  match s with
  | '_' :: '_' :: 'k' :: rest3 =>
    let m := rest3.takeWhile isAsciiAlpha
    if m.isEmpty then none
    else
      let afterAlpha := rest3.dropWhile isAsciiAlpha
      let gap := afterAlpha.takeWhile (fun c => ! isAsciiAlpha c)
      let afterGap := afterAlpha.dropWhile (fun c => ! isAsciiAlpha c)
      match afterGap with
      | _ :: _ =>
        some ((('_' :: '_' :: 'k' :: m), afterGap.takeWhile isAttrValChar),
          afterGap.dropWhile isAttrValChar)
      | [] =>
        let revGap := gap.reverse
        match revGap.dropWhile (fun c => ! isAttrValNonAlpha c) with
        | x :: _ =>
          some ((('_' :: '_' :: 'k' :: m), [x]),
            (revGap.takeWhile (fun c => ! isAttrValNonAlpha c)).reverse)
        | [] =>
          match m.reverse with
          | last :: ri :: revInit2 =>
            some ((('_' :: '_' :: 'k' :: (ri :: revInit2).reverse), [last]), gap)
          | _ => none
  | _ => none

/-- `\d{1,2}:\d{2}` at the current position: two digits greedily, backing
off to one. -/
def time1At (s : List Char) : Option (List Char × List Char) :=
  match s with
  | c :: d :: e :: f :: g :: r =>
    if pyIsDigit c && pyIsDigit d && e = ':' && pyIsDigit f && pyIsDigit g then
      some ([c, d, e, f, g], r)
    else if pyIsDigit c && d = ':' && pyIsDigit e && pyIsDigit f then
      some ([c, d, e, f], g :: r)
    else none
  | [c, d, e, f] =>
    if pyIsDigit c && d = ':' && pyIsDigit e && pyIsDigit f then
      some ([c, d, e, f], [])
    else none
  | _ => none

/-- `[Hh]ours?` at the current position (greedy optional `s`). -/
def hoursSuffixAt (s : List Char) : Option (List Char × List Char) :=
  match s with
  | h :: o :: u :: r :: rest =>
    if (h = 'H' || h = 'h') && o = 'o' && u = 'u' && r = 'r' then
      match rest with
      | 's' :: r2 => some ([h, o, u, r, 's'], r2)
      | _ => some ([h, o, u, r], rest)
    else none
  | _ => none

/-- `[Mm]inutes?` at the current position. -/
def minutesSuffixAt (s : List Char) : Option (List Char × List Char) :=
  match s with
  | mc :: i :: n :: u :: t :: e :: rest =>
    if (mc = 'M' || mc = 'm') && i = 'i' && n = 'n' && u = 'u' && t = 't' && e = 'e' then
      match rest with
      | 's' :: r2 => some ([mc, i, n, u, t, e, 's'], r2)
      | _ => some ([mc, i, n, u, t, e], rest)
    else none
  | _ => none

/-- `\d{1,2}\s*[Hh]ours?` at the current position.  The digit run takes
at most two digits; shortening it further cannot help (the next character
would be a digit, matching neither `\s` nor `[Hh]`), and the greedy
whitespace run needs no backtracking against the disjoint `[Hh]`. -/
def timeHoursAt (s : List Char) : Option (List Char × List Char) :=
  match s with
  | c :: _ :: _ =>
    if pyIsDigit c then
      let digs := s.takeWhile pyIsDigit
      let k := min 2 digs.length
      let afterD := s.drop k
      let ws := afterD.takeWhile pyIsSpace
      let afterW := afterD.dropWhile pyIsSpace
      match hoursSuffixAt afterW with
      | some (suffix, r) => some (s.take k ++ ws ++ suffix, r)
      | none => none
    else none
  | _ => none

/-- `\d{1,2}\s*[Mm]inutes?` at the current position. -/
def timeMinutesAt (s : List Char) : Option (List Char × List Char) :=
  match s with
  | c :: _ :: _ =>
    if pyIsDigit c then
      let digs := s.takeWhile pyIsDigit
      let k := min 2 digs.length
      let afterD := s.drop k
      let ws := afterD.takeWhile pyIsSpace
      let afterW := afterD.dropWhile pyIsSpace
      match minutesSuffixAt afterW with
      | some (suffix, r) => some (s.take k ++ ws ++ suffix, r)
      | none => none
    else none
  | _ => none

/-- `at\s+\d{1,2}:\d{2}` at the current position. -/
def timeAtAt (s : List Char) : Option (List Char × List Char) :=
  match s with
  | a :: t :: rest =>
    if a = 'a' && t = 't' then
      let ws := rest.takeWhile pyIsSpace
      if ws.isEmpty then none
      else
        match time1At (rest.dropWhile pyIsSpace) with
        | some (m, r) => some ('a' :: 't' :: (ws ++ m), r)
        | none => none
    else none
  | _ => none

/-- `"([^"]+)"` at the current position: the captured body between an
opening quote and the next quote, non-empty. -/
def quotedAt (s : List Char) : Option (List Char × List Char) :=
  match s with
  | '"' :: rest =>
    let body := rest.takeWhile (fun c => decide (c ≠ '"'))
    if body.isEmpty then none
    else
      match rest.drop body.length with
      | '"' :: r2 => some (body, r2)
      | _ => none
  | _ => none

/-- The marker literals of `decode_attributed_body`. -/
def nsNumberTok : List Char := "NSNumber".toList

def nsStringTok : List Char := "NSString".toList

def nsDictionaryTok : List Char := "NSDictionary".toList

def bplistTok : List Char := "bplist".toList

/-- The regex fallback of `decode_attributed_body`: the longest maximal
printable run of length at least two (first such on ties), stripped;
`None` when there is none. -/
def decodeAttributedBodyRegexFallback (s : List Char) : Option (List Char) :=
  match printableRuns 2 s with
  | [] => none
  | m :: rest => some (pyStrip (pyMaxByLen m rest))

/-- The `try` block of `decode_attributed_body`: decode the bytes with
replacement, narrow along the `NSNumber` / `NSString` / `NSDictionary`
markers (the `[1]` subscript is a fallible Python index), and otherwise
fall through to the regex fallback on the current string. -/
def decodeAttributedBodyTry (b : List Nat) : Except PyExc (Option (List Char)) := do
  let s := utf8DecodeReplace b
  if containsSub nsNumberTok s then
    let s1 ← pyListGet (pySplit nsNumberTok s) 0
    if containsSub nsStringTok s1 then
      let s2 ← pyListGet (pySplit nsStringTok s1) 1
      if containsSub nsDictionaryTok s2 then
        let s3 ← pyListGet (pySplit nsDictionaryTok s2) 0
        return some (pyStrip (slice6m12 s3))
      else return decodeAttributedBodyRegexFallback s2
    else return decodeAttributedBodyRegexFallback s1
  else return decodeAttributedBodyRegexFallback s

/-- `message_parser.decode_attributed_body` as a Python call: empty input
returns `None` before the `try`; the `except Exception` handler turns any
exception from the body into a logged `None` return.  The result is `ok`
exactly when the call returns rather than raises. -/
def decode_attributed_body_run (b : List Nat) : Except PyExc (Option (List Char)) :=
  if b.isEmpty then Except.ok none
  else
    match decodeAttributedBodyTry b with
    | Except.ok v => Except.ok v
    | Except.error _ => Except.ok none

/-- The value returned by `decode_attributed_body`. -/
def decode_attributed_body (b : List Nat) : Option (List Char) :=
  match decode_attributed_body_run b with
  | Except.ok v => v
  | Except.error _ => none

/-- `message_parser.decode_binary_plist` as a Python call, abstracting
`plistlib.loads` (library code) as a parameter that may raise. -/
def decode_binary_plist_run {α : Type} (loads : List Nat → Except PyExc α)
    (b : List Nat) : Except PyExc (Option α) :=
  if b.isEmpty then Except.ok none
  else
    match loads b with
    | Except.ok v => Except.ok (some v)
    | Except.error _ => Except.ok none

/-! ### `analyze_attributed_body_data` -/

/-- A value stored in the `detected_attributes` dict: a cleaned string, a
list of strings, or the boolean plist marker. -/
inductive PyVal where
  | str (s : List Char)
  | strList (xs : List (List Char))
  | bool (b : Bool)
deriving DecidableEq, Repr

/-- Python dict assignment `d[k] = v`: overwrite in place when the key
exists, else append (insertion order preserved). -/
def pyDictSet (d : List (List Char × PyVal)) (k : List Char) (v : PyVal) :
    List (List Char × PyVal) :=
  if d.any (fun kv => kv.1 = k) then
    d.map (fun kv => if kv.1 = k then (k, v) else kv)
  else d ++ [(k, v)]

/-- The `analysis` dict of `analyze_attributed_body_data` (fixed keys as
fields; `detected_attributes` keeps Python dict insertion order). -/
structure BodyAnalysis where
  text_content : Option (List Char)
  raw_content_indicators : List (List Char)
  detected_attributes : List (List Char × PyVal)
  content_markers : List (List Char)
  data_types_found : List (List Char)
  extractable_strings : List (List Char)
deriving DecidableEq, Repr

/-- The fixed `content_indicators` table. -/
def contentIndicators : List (List Char) :=
  ["Calendar".toList, "Event".toList, "Time".toList, "Date".toList,
   "Hours".toList, "Minutes".toList, "DDScannerResult".toList,
   "DataDetection".toList, "Link".toList, "URL".toList, "Phone".toList,
   "Address".toList, "Email".toList, "Attachment".toList,
   "Sticker".toList, "Emoji".toList, "Font".toList, "Color".toList,
   "Style".toList, "Bold".toList, "Italic".toList, "Underline".toList]

/-- `message_parser.analyze_attributed_body_data`.  `setOrder` stands for
the iteration order of `list(set(...))` over strings in the running
interpreter (CPython randomizes string hashes per process); it is
constrained by `ValidSetOrder` below.  Nothing in the `try` body can
raise (every step is total), so the function is embedded totally. -/
def analyze_attributed_body_data (setOrder : List (List Char) → List (List Char))
    (b : List Nat) : Option BodyAnalysis :=
  if b.isEmpty then none
  else
    let s := utf8DecodeReplace b
    let extractable := setOrder (printableRuns 3 s)
    let nsClasses := setOrder (pyFindAll nsAt s)
    let imAttrs := setOrder (pyFindAll kAt s)
    let rawIndicators := contentIndicators.filter (fun ind => containsSub ind s)
    let attrPairs := pyFindAll attrAt s
    let detected0 : List (List Char × PyVal) :=
      attrPairs.foldl (fun d p =>
        let cleanValue := pyStrip (p.2.filter isCleanKeepChar)
        if 1 < cleanValue.length then pyDictSet d p.1 (PyVal.str cleanValue)
        else d) []
    let timeMatches := pyFindAll time1At s ++ pyFindAll timeHoursAt s ++
      pyFindAll timeMinutesAt s ++ pyFindAll timeAtAt s
    let detected1 :=
      if timeMatches.isEmpty then detected0
      else pyDictSet detected0 "time_references".toList (PyVal.strList (setOrder timeMatches))
    let detected2 :=
      if containsSub bplistTok s then
        pyDictSet detected1 "contains_binary_plist".toList (PyVal.bool true)
      else detected1
    let quoted := pyFindAll quotedAt s
    let detected3 :=
      if quoted.isEmpty then detected2
      else pyDictSet detected2 "quoted_content".toList (PyVal.strList quoted)
    some { text_content := decode_attributed_body b
           raw_content_indicators := rawIndicators
           detected_attributes := detected3
           content_markers := imAttrs
           data_types_found := nsClasses
           extractable_strings := extractable }

/-- The constraint tying `setOrder` to `list(set(xs))`: it enumerates
exactly the distinct elements of `xs`, each once, in some order. -/
def ValidSetOrder (f : List (List Char) → List (List Char)) : Prop :=
  ∀ xs : List (List Char), (f xs).Perm xs.dedup

/-! ## Claim statements

The spec claims that quantify over database histories or set orders are
stated here as `Prop`s, so that a counterexample can refute a claim
exactly as written and an amended theorem can be proved next to it. -/

/-- The source log evolved from `db` to `db'` by appending rows whose ids
exceed every id already present (spec §3: row ids are unique, strictly
increasing at insertion, never reused). -/
def AppendsTo (db db' : DB) : Prop :=
  ∃ new, db' = db ++ new ∧ ∀ r ∈ new, ∀ s ∈ db, s.rowid < r.rowid

/-- The `date` column is duplicate-free (fixes the `ORDER BY date DESC`
order completely). -/
def DatesNodup (db : DB) : Prop := (db.map (fun r => r.date)).Nodup

/-- The `ROWID` column is duplicate-free. -/
def RowidsNodup (db : DB) : Prop := (db.map (fun r => r.rowid)).Nodup

/-- Insertion order matches timestamp order: a row with a larger id has a
strictly larger date. -/
def DateAligned (db : DB) : Prop :=
  ∀ r ∈ db, ∀ s ∈ db, r.rowid < s.rowid → r.date < s.date

/-- `c` is the id of a newest-by-date row of `db`. -/
def IsMaxDateRowid (db : DB) (c : Nat) : Prop :=
  ∃ r ∈ db, r.rowid = c ∧ ∀ s ∈ db, s.date ≤ r.date

/-- The cursor states `iMessageMonitor.start` can seed before the first
cycle: 0 (empty backlog), or the id of the newest-by-date row of some
earlier stage of the log. -/
def SeedOK (c0 : Nat) (db : DB) : Prop :=
  c0 = 0 ∨ ∃ db0, AppendsTo db0 db ∧ IsMaxDateRowid db0 c0

/-- The largest row id in a result set (`0` for an empty set). -/
def maxRowid (l : List Row) : Nat := l.foldl (fun a r => max a r.rowid) 0

/-- Claim C1 along a run: before each cycle, `acc` is the largest row id
returned by the fetches so far; the claim asserts that each cycle leaves
the cursor no smaller, and that a cycle returning records leaves it equal
to the largest id ever returned. -/
def cursorCyclesClaim : Nat → Nat → List DB → Prop
  | _, _, [] => True
  | c, acc, db :: rest =>
    let out := (checkNewMessages db c).2
    let c' := (checkNewMessages db c).1
    c ≤ c' ∧ (out ≠ [] → c' = max acc (maxRowid out)) ∧
      cursorCyclesClaim c' (max acc (maxRowid out)) rest

/-- Claim C1 as stated, over every monitor run: every append-only log
history with unambiguous dates and a cursor seeded by `start`. -/
def claimC1Statement : Prop :=
  ∀ (c0 : Nat) (dbs : List DB),
    List.Chain' AppendsTo dbs →
    (∀ db ∈ dbs, DatesNodup db) →
    SeedOK c0 (dbs.headD []) →
    cursorCyclesClaim c0 0 dbs

/-- The cursor never decreases along a run (the amended form of the first
half of C1). -/
def cursorMonotone : Nat → List DB → Prop
  | _, [] => True
  | c, db :: rest =>
    c ≤ (checkNewMessages db c).1 ∧ cursorMonotone (checkNewMessages db c).1 rest

/-- Claim C2 as stated: `get_messages_since(row_id)` returns exactly the
rows with a strictly larger row id. -/
def claimC2Statement : Prop :=
  ∀ (db : DB) (mid : Nat), RowidsNodup db → DatesNodup db →
    ∀ r : Row, r ∈ get_messages_since db mid ↔ (r ∈ db ∧ mid < r.rowid)

/-- Claim C6 as stated: the analysis output is identical across runs,
i.e. independent of the `list(set(...))` iteration order. -/
def claimC6Statement : Prop :=
  ∀ o1 o2 : List (List Char) → List (List Char),
    ValidSetOrder o1 → ValidSetOrder o2 →
    ∀ b : List Nat,
      analyze_attributed_body_data o1 b = analyze_attributed_body_data o2 b

/-- One admissible `list(set(...))` order (e.g. one hash seed). -/
def dedupOrder : List (List Char) → List (List Char) := fun xs => xs.dedup

/-- Another admissible `list(set(...))` order (e.g. another hash seed). -/
def reverseDedupOrder : List (List Char) → List (List Char) := fun xs => xs.dedup.reverse

/-- A byte string with two extractable strings (`abc`, `def` around a NUL
byte), on which the two orders above disagree. -/
def twoRunsBytes : List Nat := [0x61, 0x62, 0x63, 0x00, 0x64, 0x65, 0x66]

/-- Agreement of `detected_attributes` values up to reordering inside
list values (string and boolean values agree exactly). -/
def PyValEquiv : PyVal → PyVal → Prop
  | PyVal.str a, PyVal.str b => a = b
  | PyVal.strList a, PyVal.strList b => a.Perm b
  | PyVal.bool a, PyVal.bool b => a = b
  | _, _ => False

/-- Agreement of two analysis results up to the iteration order of the
deduplicated collections: the extracted text and the indicator list agree
exactly; the dict agrees key-for-key with values equal up to reordering;
the three deduplicated string lists agree as sets. -/
def AnalysisEquiv (a1 a2 : BodyAnalysis) : Prop :=
  a1.text_content = a2.text_content ∧
  a1.raw_content_indicators = a2.raw_content_indicators ∧
  List.Forall₂ (fun kv1 kv2 => kv1.1 = kv2.1 ∧ PyValEquiv kv1.2 kv2.2)
    a1.detected_attributes a2.detected_attributes ∧
  a1.content_markers.Perm a2.content_markers ∧
  a1.data_types_found.Perm a2.data_types_found ∧
  a1.extractable_strings.Perm a2.extractable_strings

/-! ## Theorems -/

/-- C9: `stop()` is idempotent: on a non-running monitor (never started,
or already stopped) it returns without changing anything; after any call
the monitor is stopped; a second call changes nothing further. -/
theorem stop_is_idempotent :
    (∀ s : MonitorState, s.isRunning = false → monitorStop s = s) ∧
    (∀ s : MonitorState, (monitorStop s).isRunning = false) ∧
    (∀ s : MonitorState, monitorStop (monitorStop s) = monitorStop s) := by
  refine ⟨fun s h => ?_, fun s => ?_, fun s => ?_⟩
  · simp [monitorStop, h]
  · by_cases h : s.isRunning <;> simp [monitorStop, h]
  · by_cases h : s.isRunning <;> simp [monitorStop, h]

/-- Witness for C9 at a concrete never-started monitor state. -/
theorem stop_is_idempotent_witness :
    monitorStop ⟨false, false, 0, false, false, ⟨none, false⟩⟩ =
      ⟨false, false, 0, false, false, ⟨none, false⟩⟩ ∧
    (monitorStop ⟨true, true, 7, true, false, ⟨none, false⟩⟩).isRunning = false ∧
    monitorStop (monitorStop ⟨true, true, 7, true, false, ⟨none, false⟩⟩) =
      monitorStop ⟨true, true, 7, true, false, ⟨none, false⟩⟩ :=
  ⟨stop_is_idempotent.1 _ rfl, stop_is_idempotent.2.1 _, stop_is_idempotent.2.2 _⟩

/-- C10: `start()` on a running monitor raises `RuntimeError` before
touching anything: the returned state is the input state (cursor, flags,
callback, task and nested monitor all unchanged), and no fetch result is
produced. -/
theorem start_while_running_raises :
    ∀ (s : MonitorState) (db : DB) (callback : Bool), s.isRunning = true →
      monitorStart s db callback = (Except.error PyExc.runtimeError, s) := by
  intro s db callback h
  simp [monitorStart, h]

/-- Witness for C10 at a concrete running monitor state. -/
theorem start_while_running_raises_witness :
    (MonitorState.isRunning ⟨true, true, 7, true, false, ⟨none, false⟩⟩ = true) ∧
    monitorStart ⟨true, true, 7, true, false, ⟨none, false⟩⟩ [] false =
      (Except.error PyExc.runtimeError, ⟨true, true, 7, true, false, ⟨none, false⟩⟩) :=
  ⟨rfl, start_while_running_raises _ [] false rfl⟩

/-- C5 (the code bug made precise): for every positive `limit`, forcing
`get_recent_messages_batched(limit)` raises `TypeError` on its first
iteration — the loop calls `get_recent_messages(db_path,
current_batch_size, offset)` with three positional arguments, but the
module-level `get_recent_messages` accepts only `(db_path, limit)` — so
no batch is ever yielded. -/
theorem batched_fetch_raises_typeError :
    ∀ (db : DB) (batchSize limit : Nat), 1 ≤ limit →
      get_recent_messages_batched db batchSize limit =
        Except.error PyExc.typeError := by
  intro db batchSize limit h
  show batchedLoop db batchSize limit (limit + 1) 0 = _
  unfold batchedLoop
  have h0 : 0 < limit := h
  simp only [h0, if_true, pyCallArity]
  rfl

/-- Witness for C5 at `limit = 1`. -/
theorem batched_fetch_raises_typeError_witness :
    1 ≤ 1 ∧
    get_recent_messages_batched [] 100 1 = Except.error PyExc.typeError :=
  ⟨le_refl 1, batched_fetch_raises_typeError [] 100 1 (le_refl 1)⟩

/-- C3: on every byte string (empty, random or truncated), both
`decode_attributed_body` and `decode_binary_plist` return normally — the
embedded calls always produce `Except.ok` (a `None` or a value), never a
propagated exception, for every behaviour of the underlying
`plistlib.loads`. -/
theorem decoders_never_raise :
    ∀ (b : List Nat) (α : Type) (loads : List Nat → Except PyExc α),
      (∃ v, decode_attributed_body_run b = Except.ok v) ∧
      (∃ w, decode_binary_plist_run loads b = Except.ok w) := by
  intro b α loads
  constructor
  · unfold decode_attributed_body_run
    by_cases h : b.isEmpty
    · exact ⟨none, by simp [h]⟩
    · simp only [h, Bool.false_eq_true, if_false]
      cases decodeAttributedBodyTry b with
      | ok v => exact ⟨v, rfl⟩
      | error _ => exact ⟨none, rfl⟩
  · unfold decode_binary_plist_run
    by_cases h : b.isEmpty
    · exact ⟨none, by simp [h]⟩
    · simp only [h, Bool.false_eq_true, if_false]
      cases loads b with
      | ok v => exact ⟨some v, rfl⟩
      | error _ => exact ⟨none, rfl⟩

/-- C8: the signal queue is created with fixed capacity 100, and an
enqueue attempt against a full queue is shed: the handler catches
`queue.Full` from `put_nowait`, the producer neither blocks nor raises
(the embedded event processing is a total function), and the queue
contents are left unchanged. -/
theorem queue_capacity_and_shedding :
    strategyQueueMaxsize = 100 ∧
    (∀ s : StrategyState, s.observerAlive = none →
      ((strategyStart s true true).2).messageQueue =
        some { maxsize := 100, items := [] }) ∧
    (∀ (w : WatcherState) (q : PyQueue Signal) (e : FsEvent) (t : ℚ),
      0 < q.maxsize → q.maxsize ≤ q.items.length →
      (onAnyEvent w q e t).2 = q) := by
  refine ⟨rfl, fun s h => ?_, fun w q e t h1 h2 => ?_⟩
  · simp [strategyStart, h, strategyQueueMaxsize]
  · unfold onAnyEvent
    by_cases hd : e.isDirectory
    · simp [hd]
    · simp only [hd, Bool.false_eq_true, if_false]
      unfold checkDatabaseFileEvent
      simp only [putNowait, h1, h2, and_self, if_true]
      split_ifs <;> rfl

/-- Witness for C8: a concrete strategy start and a concrete full queue
(100 identical signals) whose contents survive one more accepted event. -/
theorem queue_capacity_and_shedding_witness :
    ((strategyStart initStrategy true true).2).messageQueue =
      some { maxsize := 100, items := [] } ∧
    (onAnyEvent initWatcher
        ⟨100, List.replicate 100 ⟨0, "chat.db".toList, "modified".toList, 1⟩⟩
        ⟨"chat.db".toList, "modified".toList, false⟩ 1).2 =
      ⟨100, List.replicate 100 ⟨0, "chat.db".toList, "modified".toList, 1⟩⟩ :=
  ⟨queue_capacity_and_shedding.2.1 initStrategy rfl,
   queue_capacity_and_shedding.2.2 initWatcher _ _ 1 (by decide) (by simp)⟩

/-- The batch slices of the dispatcher loop concatenate to a prefix: the
first `K` slices of width `bsz` cover the first `K * bsz` elements. -/
lemma flatten_range_chunks {α : Type} (l : List α) (bsz : Nat) :
    ∀ K, ((List.range K).map (fun k => (l.drop (k * bsz)).take bsz)).flatten =
      l.take (K * bsz) := by
  intro K
  induction K with
  | zero => simp
  | succ K ih =>
    rw [List.range_succ, List.map_append, List.flatten_append]
    simp only [List.map_cons, List.map_nil, List.flatten_cons, List.flatten_nil,
      List.append_nil, ih]
    rw [Nat.succ_mul, List.take_add]

/-- Ceiling property of the chunk count `range(0, n, bsz)` uses. -/
lemma ceil_chunks_cover (n bsz : Nat) (h : 1 ≤ bsz) :
    n ≤ ((n + bsz - 1) / bsz) * bsz := by
  have hdm := Nat.div_add_mod (n + bsz - 1) bsz
  have hm : (n + bsz - 1) % bsz < bsz := Nat.mod_lt _ (by omega)
  set K := (n + bsz - 1) / bsz with hK
  set X := bsz * K with hX
  rw [Nat.mul_comm]
  omega

/-- C4: within one fetch-and-dispatch cycle,
`_process_messages_in_batches` reverses the newest-first input and hands
the callback exactly `list(reversed(messages))` (batching changes only
the pacing, and per-record callback failures do not skip records); when
the input row ids are strictly decreasing, the delivered row ids are
strictly increasing. -/
theorem dispatch_chronological_order :
    ∀ (messages : List Row) (batchSize : Nat), 1 ≤ batchSize →
      processMessagesInBatches true batchSize messages =
        Except.ok messages.reverse ∧
      (List.Pairwise (fun a b => b.rowid < a.rowid) messages →
        List.Pairwise (fun a b => a.rowid < b.rowid) messages.reverse) := by
  intro messages bsz h
  constructor
  · have hb : ¬ bsz = 0 := by omega
    unfold processMessagesInBatches pyRangeStep
    simp only [not_true, if_false, hb, Bool.not_true]
    show Except.ok _ = _
    rw [List.map_map]
    show Except.ok (((List.range _).map
      (fun k => (messages.reverse.drop (k * bsz)).take bsz)).flatten) = _
    rw [flatten_range_chunks]
    rw [List.take_of_length_le (ceil_chunks_cover _ _ h)]
  · intro hp
    rw [List.pairwise_reverse]
    exact hp

/-- Witness for C4 on a two-row newest-first input with batch size 1. -/
theorem dispatch_chronological_order_witness :
    1 ≤ 1 ∧
    processMessagesInBatches true 1 [⟨2, 20⟩, ⟨1, 10⟩] =
      Except.ok [⟨1, 10⟩, ⟨2, 20⟩] ∧
    List.Pairwise (fun a b => a.rowid < b.rowid)
      (List.reverse [(⟨2, 20⟩ : Row), ⟨1, 10⟩]) :=
  ⟨le_refl 1, (dispatch_chronological_order [⟨2, 20⟩, ⟨1, 10⟩] 1 (le_refl 1)).1,
   (dispatch_chronological_order [⟨2, 20⟩, ⟨1, 10⟩] 1 (le_refl 1)).2 (by decide)⟩

/-- An event arriving before the debounce clock plus the interval is
dropped entirely: only the event counter moves. -/
lemma onAnyEvent_within_interval (w : WatcherState) (q : PyQueue Signal)
    (e : FsEvent) (t : ℚ) (h : t < w.lastModificationTime + debounceInterval) :
    onAnyEvent w q e t = ({ w with eventCount := w.eventCount + 1 }, q) := by
  have hno : ¬ (debounceInterval ≤ t - w.lastModificationTime) := by
    intro hc
    have : w.lastModificationTime + debounceInterval ≤ t := by linarith
    linarith
  simp only [onAnyEvent, checkDatabaseFileEvent]
  by_cases hd : e.isDirectory
  · simp [hd]
  · simp only [hd, Bool.false_eq_true, if_false]
    split_ifs <;> rfl

/-- While every remaining event stays within the interval of the current
debounce clock, nothing is enqueued and the clock stands still. -/
lemma runEvents_all_within :
    ∀ (events : List (FsEvent × ℚ)) (w : WatcherState) (q : PyQueue Signal),
    (∀ ev ∈ events, ev.2 < w.lastModificationTime + debounceInterval) →
    (runEvents w q events).2 = q := by
  intro events
  induction events with
  | nil => intro w q _; rfl
  | cons et rest ih =>
    intro w q h
    obtain ⟨e, t⟩ := et
    have h1 := h (e, t) (List.mem_cons_self _ _)
    unfold runEvents
    rw [onAnyEvent_within_interval w q e t h1]
    exact ih _ q (fun ev hm => h ev (List.mem_cons_of_mem _ hm))

/-- One event either leaves the debounce clock and the queue alone, or
sets the clock to the event time and appends at most one signal. -/
lemma onAnyEvent_shape (w : WatcherState) (q : PyQueue Signal) (e : FsEvent) (t : ℚ) :
    ((onAnyEvent w q e t).1.lastModificationTime = w.lastModificationTime ∧
      (onAnyEvent w q e t).2 = q) ∨
    ((onAnyEvent w q e t).1.lastModificationTime = t ∧
      ∃ app : List Signal, (onAnyEvent w q e t).2.items = q.items ++ app ∧
        app.length ≤ 1) := by
  simp only [onAnyEvent, checkDatabaseFileEvent]
  by_cases hd : e.isDirectory
  · left; simp [hd]
  · simp only [hd, Bool.false_eq_true, if_false]
    split_ifs with h1 h2
    · right
      constructor
      · split <;> rfl
      · split
        · next q' hq =>
          unfold putNowait at hq
          split_ifs at hq
          simp only [Except.ok.injEq] at hq
          subst hq
          refine ⟨[_], rfl, ?_⟩
          simp
        · exact ⟨[], by simp, by simp⟩
    · left; exact ⟨rfl, rfl⟩
    · left; exact ⟨rfl, rfl⟩

/-- Any run of events confined to one debounce window `[t0, t0 + 0.1)`
appends at most one signal to the queue. -/
lemma debounce_window_aux (t0 : ℚ) :
    ∀ (events : List (FsEvent × ℚ)) (w : WatcherState) (q : PyQueue Signal),
    (∀ ev ∈ events, t0 ≤ ev.2 ∧ ev.2 < t0 + debounceInterval) →
    ∃ app, (runEvents w q events).2.items = q.items ++ app ∧ app.length ≤ 1 := by
  intro events
  induction events with
  | nil => intro w q _; exact ⟨[], by simp [runEvents], by simp⟩
  | cons et rest ih =>
    intro w q h
    obtain ⟨e, t⟩ := et
    have ht := h (e, t) (List.mem_cons_self _ _)
    have hrest : ∀ ev ∈ rest, t0 ≤ ev.2 ∧ ev.2 < t0 + debounceInterval :=
      fun ev hm => h ev (List.mem_cons_of_mem _ hm)
    show ∃ app, (runEvents (onAnyEvent w q e t).1 (onAnyEvent w q e t).2 rest).2.items
      = q.items ++ app ∧ app.length ≤ 1
    rcases onAnyEvent_shape w q e t with ⟨_, hq⟩ | ⟨hl, app1, hq, hlen⟩
    · rw [hq]
      exact ih _ q hrest
    · have hall : ∀ ev ∈ rest,
          ev.2 < (onAnyEvent w q e t).1.lastModificationTime + debounceInterval := by
        intro ev hm
        rw [hl]
        have hev := hrest ev hm
        have ht0 := ht.1
        linarith [hev.2]
      rw [runEvents_all_within rest _ _ hall]
      exact ⟨app1, hq, hlen⟩

/-- C7: any non-empty burst of filesystem events on watched database
files whose times all fall within one 100 ms debounce window of its
start leads to at most one Change Signal being enqueued; the coalesced
events leave no trace in the queue (they are dropped, not deferred). -/
theorem debounce_at_most_one_signal :
    ∀ (w : WatcherState) (q : PyQueue Signal) (events : List (FsEvent × ℚ)) (t0 : ℚ),
      events ≠ [] →
      (∀ ev ∈ events, ev.1.isDirectory = false ∧ pathName ev.1.srcPath ∈ dbFiles) →
      (∀ ev ∈ events, t0 ≤ ev.2 ∧ ev.2 < t0 + debounceInterval) →
      ∃ app, (runEvents w q events).2.items = q.items ++ app ∧ app.length ≤ 1 :=
  fun w q events t0 _ _ hwin => debounce_window_aux t0 events w q hwin

/-- Witness for C7: three simultaneous `chat.db` modification events at
time 5 on a fresh watcher enqueue at most one signal. -/
theorem debounce_at_most_one_signal_witness :
    ([(⟨"chat.db".toList, "modified".toList, false⟩, (5 : ℚ)),
      (⟨"chat.db".toList, "modified".toList, false⟩, 5),
      (⟨"chat.db".toList, "modified".toList, false⟩, 5)] ≠
        ([] : List (FsEvent × ℚ))) ∧
    ∃ app, (runEvents initWatcher ⟨100, []⟩
      [(⟨"chat.db".toList, "modified".toList, false⟩, 5),
       (⟨"chat.db".toList, "modified".toList, false⟩, 5),
       (⟨"chat.db".toList, "modified".toList, false⟩, 5)]).2.items =
      ([] : List Signal) ++ app ∧ app.length ≤ 1 :=
  ⟨by simp,
   debounce_at_most_one_signal initWatcher ⟨100, []⟩ _ 5
    (by simp)
    (by
      intro ev hm
      simp only [List.mem_cons, List.not_mem_nil, or_false] at hm
      rcases hm with h | h | h <;> subst h <;> exact ⟨rfl, by decide⟩)
    (by
      intro ev hm
      simp only [List.mem_cons, List.not_mem_nil, or_false] at hm
      rcases hm with h | h | h <;> subst h <;>
        exact ⟨le_refl 5, by norm_num [debounceInterval]⟩)⟩

/-- Counterexample to C2 as stated: on a log whose timestamps disagree
with insertion order (row 1 dated 100, row 2 dated 50),
`get_messages_since(1)` counts one newer row but then re-fetches the one
most recent row *by date* — returning row 1 (not newer than 1) and
dropping row 2 (which is newer). -/
theorem get_messages_since_counterexample : ¬ claimC2Statement := by
  intro h
  have h2 := (h [⟨1, 100⟩, ⟨2, 50⟩] 1 (by unfold RowidsNodup; decide)
    (by unfold DatesNodup; decide) ⟨2, 50⟩).mpr (by decide)
  exact absurd h2 (by decide)

/-- Counterexample to C1 as stated: starting from an empty log (cursor
0), rows 1 (dated 100) and 2 (dated 50) are inserted; the fetch cycle
returns both rows but sets the cursor to `new_messages[0]['message_id']`
— the id of the newest row *by date*, namely 1 — while the maximum row
id returned is 2. -/
theorem cursor_max_counterexample : ¬ claimC1Statement := by
  intro h
  have h1 := h 0 [[⟨1, 100⟩, ⟨2, 50⟩]] (List.chain'_singleton _)
    (by
      intro db hdb
      simp only [List.mem_singleton] at hdb
      subst hdb
      unfold DatesNodup
      decide)
    (Or.inl rfl)
  rcases h1 with ⟨_, h2, _⟩
  exact absurd (h2 (by decide)) (by decide)

/-- Counterexample to C6 as stated: on the bytes `abc\x00def` the
analysis contains the deduplicated list `extractable_strings`, whose
order is the iteration order of a Python `set` of strings — here two
admissible orders (two hash seeds) produce `["abc", "def"]` and
`["def", "abc"]` respectively, so two runs disagree. -/
theorem analyze_two_runs_counterexample : ¬ claimC6Statement := by
  intro h
  have hv1 : ValidSetOrder dedupOrder := fun xs => List.Perm.refl _
  have hv2 : ValidSetOrder reverseDedupOrder := fun xs => List.reverse_perm _
  have heq := h dedupOrder reverseDedupOrder hv1 hv2 twoRunsBytes
  exact absurd heq (by decide)

lemma sortByDateDesc_perm (db : DB) : (sortByDateDesc db).Perm db :=
  List.perm_insertionSort _ _

lemma sortByDateDesc_sorted (db : DB) : List.Sorted dateDesc (sortByDateDesc db) :=
  List.sorted_insertionSort _ _

/-- With duplicate-free dates, a date-descending sort is strictly
descending. -/
lemma pairwise_strict_of_nodup_dates {l : List Row}
    (hs : List.Sorted dateDesc l) (hn : DatesNodup l) :
    List.Pairwise (fun a b => b.date < a.date) l := by
  have hne : List.Pairwise (fun a b : Row => a.date ≠ b.date) l := by
    unfold DatesNodup at hn
    rw [List.Nodup, List.pairwise_map] at hn
    exact hn
  exact (hs.and hne).imp (fun h => lt_of_le_of_ne h.1 (fun he => h.2 he.symm))

/-- Under date/rowid alignment, the date-descending sort is also strictly
rowid-descending. -/
lemma sort_rowid_desc {db : DB} (hr : RowidsNodup db) (hd2 : DatesNodup db)
    (hal : DateAligned db) :
    List.Pairwise (fun a b => b.rowid < a.rowid) (sortByDateDesc db) := by
  have hnds : DatesNodup (sortByDateDesc db) := by
    unfold DatesNodup at hd2 ⊢
    exact (((sortByDateDesc_perm db).map (fun r => r.date)).nodup_iff).mpr hd2
  have hstrict := pairwise_strict_of_nodup_dates (sortByDateDesc_sorted db) hnds
  refine hstrict.imp_of_mem ?_
  intro a b ha hb hlt
  have ha' : a ∈ db := (sortByDateDesc_perm db).subset ha
  have hb' : b ∈ db := (sortByDateDesc_perm db).subset hb
  rcases Nat.lt_trichotomy b.rowid a.rowid with h | h | h
  · exact h
  · have heq : b = a := List.inj_on_of_nodup_map hr hb' ha' h
    subst heq
    exact absurd hlt (lt_irrefl _)
  · have := hal a ha' b hb' h
    exact absurd hlt (by linarith)

/-- In a strictly rowid-descending list, the rows above a threshold form
the prefix of length `countP`. -/
lemma take_countP_eq_filter {l : List Row} {mid : Nat}
    (h : List.Pairwise (fun a b => b.rowid < a.rowid) l) :
    l.take (l.countP (fun r => decide (mid < r.rowid))) =
      l.filter (fun r => decide (mid < r.rowid)) := by
  induction l with
  | nil => simp
  | cons a t ih =>
    rcases List.pairwise_cons.mp h with ⟨ha, ht⟩
    by_cases hp : mid < a.rowid
    · rw [List.countP_cons, List.filter_cons]
      simp [hp, ih ht]
    · have hall : ∀ b ∈ t, ¬ (decide (mid < b.rowid) = true) := by
        intro b hb
        have := ha b hb
        simp only [decide_eq_true_eq]
        omega
      have hc : List.countP (fun r => decide (mid < r.rowid)) (a :: t) = 0 := by
        rw [List.countP_eq_zero]
        intro b hb
        rcases List.mem_cons.mp hb with hb | hb
        · subst hb; simpa using hp
        · exact hall b hb
      rw [hc]
      simp only [List.take_zero]
      symm
      rw [List.filter_eq_nil_iff]
      intro b hb
      rcases List.mem_cons.mp hb with hb | hb
      · subst hb; simpa using hp
      · exact hall b hb

/-- Transport of duplicate-free dates through the sort. -/
lemma datesNodup_sort {db : DB} (hd : DatesNodup db) :
    DatesNodup (sortByDateDesc db) := by
  unfold DatesNodup at hd ⊢
  exact (((sortByDateDesc_perm db).map (fun r => r.date)).nodup_iff).mpr hd

/-- Transport of duplicate-free dates to a filtered log. -/
lemma datesNodup_filter {db : DB} (p : Row → Bool) (hd : DatesNodup db) :
    DatesNodup (db.filter p) := by
  unfold DatesNodup at hd ⊢
  exact hd.sublist ((List.filter_sublist db).map (fun r => r.date))

/-- C2 amended: on a log with distinct ids, distinct dates, and
timestamps aligned with insertion order, `get_messages_since(mid)`
returns exactly the rows with id greater than `mid` and no others, in
date-descending (= id-descending) order. -/
theorem get_messages_since_amended :
    ∀ (db : DB) (mid : Nat), RowidsNodup db → DatesNodup db → DateAligned db →
      get_messages_since db mid =
        sortByDateDesc (db.filter (fun r => decide (mid < r.rowid))) ∧
      (∀ r : Row, r ∈ get_messages_since db mid ↔ (r ∈ db ∧ mid < r.rowid)) := by
  intro db mid hr hd hal
  have hmain : get_messages_since db mid =
      sortByDateDesc (db.filter (fun r => decide (mid < r.rowid))) := by
    unfold get_messages_since
    by_cases hempty : sortByDateDesc (db.filter (fun r => decide (mid < r.rowid))) = []
    · rw [hempty]
      rfl
    · have hne : ((sortByDateDesc (db.filter (fun r => decide (mid < r.rowid)))).map
          (fun r => r.rowid)).isEmpty = false := by
        exact List.isEmpty_eq_false.mpr (by simpa using hempty)
      simp only [hne, Bool.false_eq_true, if_false]
      unfold get_recent_messages
      have hlen : ((sortByDateDesc (db.filter (fun r => decide (mid < r.rowid)))).map
          (fun r => r.rowid)).length
          = List.countP (fun r => decide (mid < r.rowid)) (sortByDateDesc db) := by
        rw [List.length_map, (sortByDateDesc_perm _).length_eq,
          ← List.countP_eq_length_filter]
        exact ((sortByDateDesc_perm db).countP_eq _).symm
      rw [hlen]
      rw [take_countP_eq_filter (sort_rowid_desc hr hd hal)]
      refine @List.eq_of_perm_of_sorted Row (fun a b => b.date < a.date)
        ⟨fun a b h1 h2 => absurd (lt_trans h1 h2) (lt_irrefl _)⟩ _ _ ?_ ?_ ?_
      · exact ((sortByDateDesc_perm db).filter _).trans (sortByDateDesc_perm _).symm
      · exact List.Pairwise.filter _
          (pairwise_strict_of_nodup_dates (sortByDateDesc_sorted db) (datesNodup_sort hd))
      · exact pairwise_strict_of_nodup_dates (sortByDateDesc_sorted _)
          (datesNodup_sort (datesNodup_filter _ hd))
  refine ⟨hmain, fun r => ?_⟩
  rw [hmain]
  constructor
  · intro hrm
    have hmem : r ∈ db.filter (fun r => decide (mid < r.rowid)) :=
      (sortByDateDesc_perm _).subset hrm
    rcases List.mem_filter.mp hmem with ⟨h1, h2⟩
    exact ⟨h1, by simpa using h2⟩
  · rintro ⟨h1, h2⟩
    exact (sortByDateDesc_perm _).mem_iff.mpr
      (List.mem_filter.mpr ⟨h1, by simpa using h2⟩)

/-- Witness for the amended C2 on the spec scenario (log with max id
100; rows 101–105 inserted with later dates; a fetch with cursor 100
returns exactly rows 101–105, newest first). -/
theorem get_messages_since_amended_witness :
    (get_messages_since
        [⟨100, 1000⟩, ⟨101, 1001⟩, ⟨102, 1002⟩, ⟨103, 1003⟩, ⟨104, 1004⟩, ⟨105, 1005⟩] 100 =
      sortByDateDesc (List.filter (fun r => decide (100 < r.rowid))
        [⟨100, 1000⟩, ⟨101, 1001⟩, ⟨102, 1002⟩, ⟨103, 1003⟩, ⟨104, 1004⟩, ⟨105, 1005⟩])) ∧
    get_messages_since
        [⟨100, 1000⟩, ⟨101, 1001⟩, ⟨102, 1002⟩, ⟨103, 1003⟩, ⟨104, 1004⟩, ⟨105, 1005⟩] 100 =
      [⟨105, 1005⟩, ⟨104, 1004⟩, ⟨103, 1003⟩, ⟨102, 1002⟩, ⟨101, 1001⟩] :=
  ⟨(get_messages_since_amended
      [⟨100, 1000⟩, ⟨101, 1001⟩, ⟨102, 1002⟩, ⟨103, 1003⟩, ⟨104, 1004⟩, ⟨105, 1005⟩] 100
      (by unfold RowidsNodup; decide) (by unfold DatesNodup; decide)
      (by unfold DateAligned; decide)).1,
   by decide⟩

/-- A non-empty `get_messages_since` result starts with the head of the
global date-descending sort. -/
lemma get_messages_since_head {db : DB} {c : Nat} {m : Row} {rest : List Row}
    (hg : get_messages_since db c = m :: rest) :
    ∃ tail, sortByDateDesc db = m :: tail := by
  unfold get_messages_since at hg
  by_cases he : ((sortByDateDesc (db.filter fun r => decide (c < r.rowid))).map
      (fun r => r.rowid)).isEmpty
  · simp [he] at hg
  · simp only [he, Bool.false_eq_true, if_false] at hg
    unfold get_recent_messages at hg
    cases hs : sortByDateDesc db with
    | nil => rw [hs] at hg; simp at hg
    | cons a tail =>
      rw [hs] at hg
      cases hn : ((sortByDateDesc (db.filter fun r => decide (c < r.rowid))).map
          (fun r => r.rowid)).length with
      | zero => rw [hn] at hg; simp at hg
      | succ k =>
        rw [hn, List.take_succ_cons] at hg
        injection hg with h1 _
        exact ⟨tail, by rw [h1]⟩

/-- The head of the date-descending sort carries the id of a
newest-by-date row. -/
lemma sort_head_max {db : DB} {m : Row} {tail : List Row}
    (hs : sortByDateDesc db = m :: tail) : IsMaxDateRowid db m.rowid := by
  have hmem : m ∈ db := (sortByDateDesc_perm db).subset (hs ▸ List.mem_cons_self m tail)
  refine ⟨m, hmem, rfl, ?_⟩
  intro s hsmem
  have hin : s ∈ sortByDateDesc db := (sortByDateDesc_perm db).mem_iff.mpr hsmem
  rw [hs] at hin
  rcases List.mem_cons.mp hin with he | ht
  · rw [he]
  · exact List.rel_of_sorted_cons (hs ▸ sortByDateDesc_sorted db) s ht

/-- After a fetch cycle that found records, the cursor is the id of a
newest-by-date row of the whole log. -/
lemma checkNewMessages_nonempty_max {db : DB} {c : Nat}
    (h : (checkNewMessages db c).2 ≠ []) :
    IsMaxDateRowid db (checkNewMessages db c).1 := by
  cases hg : get_messages_since db c with
  | nil => exact absurd (by unfold checkNewMessages; rw [hg]) h
  | cons m rest =>
    have h1 : (checkNewMessages db c).1 = m.rowid := by
      unfold checkNewMessages; rw [hg]
    rcases get_messages_since_head hg with ⟨tail, hs⟩
    rw [h1]
    exact sort_head_max hs

lemma appendsTo_trans {a b c : DB} (h1 : AppendsTo a b) (h2 : AppendsTo b c) :
    AppendsTo a c := by
  rcases h1 with ⟨n1, rfl, hg1⟩
  rcases h2 with ⟨n2, rfl, hg2⟩
  refine ⟨n1 ++ n2, by rw [List.append_assoc], ?_⟩
  intro r hr s hs
  rcases List.mem_append.mp hr with h | h
  · exact hg1 r h s hs
  · exact hg2 r h s (List.mem_append_left _ hs)

lemma seedOK_appendsTo {c : Nat} {db db' : DB} (h : SeedOK c db)
    (ha : AppendsTo db db') : SeedOK c db' := by
  rcases h with rfl | ⟨db0, h0, hmax⟩
  · exact Or.inl rfl
  · exact Or.inr ⟨db0, appendsTo_trans h0 ha, hmax⟩

/-- One cycle never lowers a cursor that is 0 or the newest-by-date id of
some append-prefix of the log, and re-establishes that invariant. -/
lemma cursor_step_mono {db : DB} {c : Nat} (hd : DatesNodup db)
    (hinv : SeedOK c db) :
    c ≤ (checkNewMessages db c).1 ∧ SeedOK (checkNewMessages db c).1 db := by
  cases hg : get_messages_since db c with
  | nil =>
    have h1 : (checkNewMessages db c).1 = c := by
      unfold checkNewMessages; rw [hg]
    rw [h1]
    exact ⟨le_refl c, hinv⟩
  | cons m rest =>
    have h1 : (checkNewMessages db c).1 = m.rowid := by
      unfold checkNewMessages; rw [hg]
    rcases get_messages_since_head hg with ⟨tail, hs⟩
    have hmax : IsMaxDateRowid db m.rowid := sort_head_max hs
    rw [h1]
    constructor
    · rcases hinv with rfl | ⟨db0, ⟨new, happ, hgt⟩, r0, hr0mem, hr0id, hr0max⟩
      · exact Nat.zero_le _
      · rcases hmax with ⟨mr, hmrmem, hmrid, hmrmax⟩
        subst happ
        rcases List.mem_append.mp hmrmem with hin0 | hinnew
        · have hd1 : mr.date ≤ r0.date := hr0max mr hin0
          have hd2 : r0.date ≤ mr.date := hmrmax r0 (List.mem_append_left _ hr0mem)
          have heq : mr = r0 :=
            List.inj_on_of_nodup_map hd (List.mem_append_left _ hin0)
              (List.mem_append_left _ hr0mem) (le_antisymm hd1 hd2)
          rw [← hmrid, heq, hr0id]
        · have hlt := hgt mr hinnew r0 hr0mem
          omega
    · exact Or.inr ⟨db, ⟨[], by simp, by simp⟩, hmax⟩

/-- The cursor trace is non-decreasing along any append-only log history
with unambiguous dates, from any cursor `start` can seed. -/
lemma cursorMonotone_of_seed :
    ∀ (dbs : List DB) (c0 : Nat),
    List.Chain' AppendsTo dbs → (∀ db ∈ dbs, DatesNodup db) →
    SeedOK c0 (dbs.headD []) → cursorMonotone c0 dbs := by
  intro dbs
  induction dbs with
  | nil => intro c0 _ _ _; trivial
  | cons db rest ih =>
    intro c0 hch hd hseed
    have hd0 : DatesNodup db := hd db (List.mem_cons_self _ _)
    have hstep := cursor_step_mono hd0 (by simpa using hseed)
    refine ⟨hstep.1, ?_⟩
    cases rest with
    | nil => trivial
    | cons db2 rest2 =>
      apply ih
      · exact hch.tail
      · intro d hdm; exact hd d (List.mem_cons_of_mem _ hdm)
      · exact seedOK_appendsTo hstep.2 hch.rel_head

/-- C1 amended: over every monitor run on an append-only log with
unambiguous dates, the cursor is non-decreasing; and after a cycle that
returns records the cursor equals `new_messages[0]['message_id']` — the
row id of the newest-by-date row of the log — which need not be the
maximum row id among the returned records. -/
theorem cursor_monotone_amended :
    (∀ (c0 : Nat) (dbs : List DB),
      List.Chain' AppendsTo dbs → (∀ db ∈ dbs, DatesNodup db) →
      SeedOK c0 (dbs.headD []) → cursorMonotone c0 dbs) ∧
    (∀ (db : DB) (c : Nat), (checkNewMessages db c).2 ≠ [] →
      IsMaxDateRowid db (checkNewMessages db c).1) :=
  ⟨fun c0 dbs h1 h2 h3 => cursorMonotone_of_seed dbs c0 h1 h2 h3,
   fun _ _ h => checkNewMessages_nonempty_max h⟩

/-- Witness for the amended C1 on a concrete two-cycle run. -/
theorem cursor_monotone_amended_witness :
    cursorMonotone 0 [[⟨1, 10⟩], [⟨1, 10⟩, ⟨2, 50⟩]] ∧
    IsMaxDateRowid [⟨1, 10⟩, ⟨2, 50⟩] (checkNewMessages [⟨1, 10⟩, ⟨2, 50⟩] 0).1 :=
  ⟨cursor_monotone_amended.1 0 [[⟨1, 10⟩], [⟨1, 10⟩, ⟨2, 50⟩]]
    (by
      refine List.chain'_pair.mpr ?_
      exact ⟨[⟨2, 50⟩], rfl, by decide⟩)
    (by
      intro d hdm
      simp only [List.mem_cons, List.not_mem_nil, or_false] at hdm
      rcases hdm with h | h <;> subst h <;> (unfold DatesNodup; decide))
    (Or.inl rfl),
   cursor_monotone_amended.2 [⟨1, 10⟩, ⟨2, 50⟩] 0 (by decide)⟩

lemma pyValEquiv_refl (v : PyVal) : PyValEquiv v v := by
  cases v with
  | str s => exact rfl
  | strList xs => exact List.Perm.refl xs
  | bool b => exact rfl

lemma forall2_dict_append {d1 d2 e1 e2 : List (List Char × PyVal)}
    (h1 : List.Forall₂ (fun kv1 kv2 => kv1.1 = kv2.1 ∧ PyValEquiv kv1.2 kv2.2) d1 d2)
    (h2 : List.Forall₂ (fun kv1 kv2 => kv1.1 = kv2.1 ∧ PyValEquiv kv1.2 kv2.2) e1 e2) :
    List.Forall₂ (fun kv1 kv2 => kv1.1 = kv2.1 ∧ PyValEquiv kv1.2 kv2.2)
      (d1 ++ e1) (d2 ++ e2) := by
  induction h1 with
  | nil => simpa using h2
  | cons hab h ih => exact List.Forall₂.cons hab ih

lemma forall2_dict_any_eq {d1 d2 : List (List Char × PyVal)} (k : List Char)
    (h : List.Forall₂ (fun kv1 kv2 => kv1.1 = kv2.1 ∧ PyValEquiv kv1.2 kv2.2) d1 d2) :
    d1.any (fun kv => decide (kv.1 = k)) = d2.any (fun kv => decide (kv.1 = k)) := by
  induction h with
  | nil => rfl
  | cons hab h ih => simp only [List.any_cons, ih, hab.1]

/-- A Python dict assignment preserves key-for-key equivalence when the
assigned values are equivalent. -/
lemma forall2_pyDictSet (k : List Char) {d1 d2 : List (List Char × PyVal)}
    {v1 v2 : PyVal}
    (h : List.Forall₂ (fun kv1 kv2 => kv1.1 = kv2.1 ∧ PyValEquiv kv1.2 kv2.2) d1 d2)
    (hv : PyValEquiv v1 v2) :
    List.Forall₂ (fun kv1 kv2 => kv1.1 = kv2.1 ∧ PyValEquiv kv1.2 kv2.2)
      (pyDictSet d1 k v1) (pyDictSet d2 k v2) := by
  unfold pyDictSet
  rw [← forall2_dict_any_eq k h]
  by_cases hc : d1.any (fun kv => decide (kv.1 = k)) = true
  · simp only [hc, if_true]
    rw [List.forall₂_map_left_iff, List.forall₂_map_right_iff]
    refine h.imp ?_
    rintro a b ⟨hk, hvv⟩
    by_cases ha : a.1 = k
    · have hb : b.1 = k := hk ▸ ha
      simp only [ha, hb, if_true]
      exact ⟨trivial, hv⟩
    · have hb : ¬ b.1 = k := hk ▸ ha
      simp only [ha, hb, if_false]
      exact ⟨hk, hvv⟩
  · simp only [hc, Bool.false_eq_true, if_false]
    exact forall2_dict_append h (List.Forall₂.cons ⟨rfl, hv⟩ List.Forall₂.nil)

lemma forall2_dict_ifElse (cond : Bool) (k : List Char)
    {d1 d2 : List (List Char × PyVal)} {v1 v2 : PyVal}
    (h : List.Forall₂ (fun kv1 kv2 => kv1.1 = kv2.1 ∧ PyValEquiv kv1.2 kv2.2) d1 d2)
    (hv : PyValEquiv v1 v2) :
    List.Forall₂ (fun kv1 kv2 => kv1.1 = kv2.1 ∧ PyValEquiv kv1.2 kv2.2)
      (if cond then d1 else pyDictSet d1 k v1)
      (if cond then d2 else pyDictSet d2 k v2) := by
  cases cond
  · simpa using forall2_pyDictSet k h hv
  · simpa using h

lemma forall2_dict_ifThen (cond : Bool) (k : List Char)
    {d1 d2 : List (List Char × PyVal)} {v1 v2 : PyVal}
    (h : List.Forall₂ (fun kv1 kv2 => kv1.1 = kv2.1 ∧ PyValEquiv kv1.2 kv2.2) d1 d2)
    (hv : PyValEquiv v1 v2) :
    List.Forall₂ (fun kv1 kv2 => kv1.1 = kv2.1 ∧ PyValEquiv kv1.2 kv2.2)
      (if cond then pyDictSet d1 k v1 else d1)
      (if cond then pyDictSet d2 k v2 else d2) := by
  cases cond
  · simpa using h
  · simpa using forall2_pyDictSet k h hv

/-- C6 amended: across two runs (two admissible `set` iteration orders)
the analysis of the same bytes is identical up to reordering inside the
deduplicated collections: `None`-ness, the extracted text, and the
indicator list agree exactly; the attribute dict agrees key for key with
equivalent values; the deduplicated string lists agree as sets. -/
theorem analyze_deterministic_up_to_set_order :
    ∀ (o1 o2 : List (List Char) → List (List Char)),
      ValidSetOrder o1 → ValidSetOrder o2 → ∀ b : List Nat,
      (analyze_attributed_body_data o1 b = none ↔
        analyze_attributed_body_data o2 b = none) ∧
      (∀ a1 a2, analyze_attributed_body_data o1 b = some a1 →
        analyze_attributed_body_data o2 b = some a2 → AnalysisEquiv a1 a2) := by
  intro o1 o2 hv1 hv2 b
  unfold analyze_attributed_body_data
  by_cases hb : b.isEmpty
  · simp [hb]
  · simp only [hb, Bool.false_eq_true, if_false, Option.some.injEq]
    constructor
    · simp
    · intro a1 a2 h1 h2
      subst h1
      subst h2
      refine ⟨rfl, rfl, ?_, ?_, ?_, ?_⟩
      · exact forall2_dict_ifElse _ _
          (forall2_dict_ifThen _ _
            (forall2_dict_ifElse _ _
              (List.forall₂_same.mpr fun x _ => ⟨rfl, pyValEquiv_refl _⟩)
              ((hv1 _).trans (hv2 _).symm))
            (pyValEquiv_refl _))
          (pyValEquiv_refl _)
      · exact (hv1 _).trans (hv2 _).symm
      · exact (hv1 _).trans (hv2 _).symm
      · exact (hv1 _).trans (hv2 _).symm

/-- Witness for the amended C6: the two concrete runs on `abc\x00def`
agree up to the order of `extractable_strings`. -/
theorem analyze_deterministic_up_to_set_order_witness :
    AnalysisEquiv
      { text_content := some "abc".toList
        raw_content_indicators := []
        detected_attributes := []
        content_markers := []
        data_types_found := []
        extractable_strings := ["abc".toList, "def".toList] }
      { text_content := some "abc".toList
        raw_content_indicators := []
        detected_attributes := []
        content_markers := []
        data_types_found := []
        extractable_strings := ["def".toList, "abc".toList] } :=
  (analyze_deterministic_up_to_set_order dedupOrder reverseDedupOrder
    (fun _ => List.Perm.refl _) (fun _ => List.reverse_perm _) twoRunsBytes).2
    _ _ (by decide) (by decide)
